import Mathlib

/-!
Verification model of the ray-query dispatch engine
(`src/rayquery.cpp`, `shaders/host_device.h`) and of the light
importance-sampling alias tables it consumes.

Machine integers: `VkExtent2D.width/height`, `m_bufferSize` and all
Vulkan counts are `uint32_t`; arithmetic on them is modelled on `Nat`
with an explicit `% 2^32` exactly where the C++ expression is 32-bit
(products and sums of `uint32_t`).  Handles are modelled as `Nat` with
`0` playing `VK_NULL_HANDLE`; the allocator hands out strictly
increasing fresh identities, so distinct live objects have distinct
handles.
-/

/-- 2^32, the modulus of `uint32_t` arithmetic. -/
def U32_MOD : Nat := 4294967296

/-- VkExtent2D: a pair of `uint32_t` dimensions. -/
structure Extent2D where
  width : Nat
  height : Nat
  deriving DecidableEq

-- Vulkan enumeration values used by rayquery.cpp (from vulkan_core.h).
def VK_SHADER_STAGE_FRAGMENT_BIT : Nat := 16
def VK_SHADER_STAGE_COMPUTE_BIT : Nat := 32
def VK_SHADER_STAGE_RAYGEN_BIT_KHR : Nat := 256
def VK_SHADER_STAGE_ANY_HIT_BIT_KHR : Nat := 512
def VK_SHADER_STAGE_CLOSEST_HIT_BIT_KHR : Nat := 1024
def VK_BUFFER_USAGE_STORAGE_BUFFER_BIT : Nat := 32
def VK_MEMORY_PROPERTY_DEVICE_LOCAL_BIT : Nat := 1
def VK_DESCRIPTOR_TYPE_STORAGE_BUFFER : Nat := 7
def VK_PIPELINE_BIND_POINT_COMPUTE : Nat := 1
def VK_NULL_HANDLE : Nat := 0

/-- RayQBindings::eGbuffer from host_device.h (Ray Query - Set 4). -/
def eGbuffer : Nat := 0

/-- The shader-stage mask used for the G-buffer binding in
`RayQuery::createDescriptorSet` and `RayQuery::update`. -/
def gbufferStageFlags : Nat :=
  VK_SHADER_STAGE_RAYGEN_BIT_KHR + VK_SHADER_STAGE_CLOSEST_HIT_BIT_KHR
    + VK_SHADER_STAGE_ANY_HIT_BIT_KHR + VK_SHADER_STAGE_COMPUTE_BIT
    + VK_SHADER_STAGE_FRAGMENT_BIT

-- Byte sizes of the scalar and vector types of host_device.h
-- (nvmath vectors are packed arrays of 4-byte scalars, alignment 4,
-- so the structs below have no padding between fields).
def sizeof_int : Nat := 4
def sizeof_uint : Nat := 4
def sizeof_float : Nat := 4
def sizeof_vec2 : Nat := 8
def sizeof_vec3 : Nat := 12
def sizeof_ivec2 : Nat := 8

/-- sizeof(GeomData), the per-pixel G-buffer entry of host_device.h:
normal, tangent, texCoord, matIndex, position, vertColor, pad. -/
def sizeof_GeomData : Nat :=
  sizeof_vec3 + sizeof_vec3 + sizeof_vec2 + sizeof_uint
    + sizeof_vec3 + sizeof_vec3 + sizeof_float

/-- sizeof(RtxState), the push-constant record of host_device.h:
frame, maxDepth, spp, fireflyClampThreshold, hdrMultiplier,
debugging_mode, pbrMode, environmentProb, size, minHeatmap,
maxHeatmap, time. -/
def sizeof_RtxState : Nat :=
  sizeof_int + sizeof_int + sizeof_int + sizeof_float
    + sizeof_float + sizeof_int + sizeof_int + sizeof_float
    + sizeof_ivec2 + sizeof_int + sizeof_int + sizeof_uint

/-- GROUP_SIZE from rayquery.cpp (the compute work-group edge). -/
def GROUP_SIZE : Nat := 8

/-- A device buffer as handed out by nvvk::ResourceAllocator::createBuffer:
its handle identity plus the creation parameters it was given. -/
structure Buffer where
  id : Nat
  size : Nat
  usage : Nat
  memProps : Nat
  deriving DecidableEq

/-- The model of nvvk::ResourceAllocator: a fresh-identity counter and
the list of buffer handles that have been released. -/
structure Allocator where
  nextId : Nat
  destroyed : List Nat
  deriving DecidableEq

def Allocator.createBuffer (a : Allocator) (size usage memProps : Nat) :
    Buffer × Allocator :=
  (⟨a.nextId, size, usage, memProps⟩, ⟨a.nextId + 1, a.destroyed⟩)

def Allocator.destroyBuffer (a : Allocator) (b : Buffer) : Allocator :=
  ⟨a.nextId, b.id :: a.destroyed⟩

/-- A Vulkan push-constant range (stageFlags, offset, size). -/
structure PushConstantRange where
  stageFlags : Nat
  offset : Nat
  size : Nat
  deriving DecidableEq

/-- The observable API calls rayquery.cpp makes, in program order.
The `cmd`-tagged constructors are command-buffer *recording* calls
(vkCmd*); the others touch host/device objects immediately.
`deviceWaitIdle` is in the vocabulary to make the absence of
synchronization a falsifiable statement. -/
inductive Effect where
  | destroyBuffer (id : Nat)
  | createBuffer (id size usage memProps : Nat)
  | destroyDescriptorPool (h : Nat)
  | destroyDescriptorSetLayout (h : Nat)
  | destroyPipeline (h : Nat)
  | destroyPipelineLayout (h : Nat)
  | updateDescriptorSets (set binding descriptorType bufferId : Nat)
  | cmdBindPipeline (bindPoint pipeline : Nat)
  | cmdBindDescriptorSets (bindPoint layout firstSet : Nat) (sets : List Nat)
  | cmdPushConstants (layout stageFlags offset size payload : Nat)
  | cmdDispatch (x y z : Nat)
  | deviceWaitIdle
  deriving DecidableEq

/-- True exactly for the vkCmd* command-buffer recording calls. -/
def Effect.isCmdRecording : Effect → Bool
  | .cmdBindPipeline _ _ => true
  | .cmdBindDescriptorSets _ _ _ _ => true
  | .cmdPushConstants _ _ _ _ _ => true
  | .cmdDispatch _ _ _ => true
  | _ => false

/-- The member state of class RayQuery (rayquery.cpp).  Handles are
`Nat` (0 = VK_NULL_HANDLE).  `descSetGbuffer` models the device-side
descriptor memory: the buffer id currently written at binding
`eGbuffer` of `descSet`.  `pipelineSetLayouts` and
`pipelinePushConstants` record what the pipeline layout was created
with.  `state` is the opaque `m_state` push-constant payload. -/
structure RayQuery where
  alloc : Allocator
  buffer : Buffer
  bufferSize : Nat
  descPool : Nat
  descSetLayout : Nat
  descSet : Nat
  descSetGbuffer : Nat
  pipelineLayout : Nat
  pipeline : Nat
  pipelineSetLayouts : List Nat
  pipelinePushConstants : List PushConstantRange
  state : Nat
  deriving DecidableEq

/-- A default-constructed RayQuery before `create`: null handles,
empty allocator starting above the null handle. -/
def RayQuery.initial : RayQuery :=
  { alloc := ⟨1, []⟩
    buffer := ⟨0, 0, 0, 0⟩
    bufferSize := 0
    descPool := 0
    descSetLayout := 0
    descSet := 0
    descSetGbuffer := 0
    pipelineLayout := 0
    pipeline := 0
    pipelineSetLayouts := []
    pipelinePushConstants := []
    state := 0 }

/-- RayQuery::createDescriptorSet (rayquery.cpp:144-158): creates the
pool, layout and set for the single storage-buffer binding eGbuffer,
then writes the current G-buffer into the set. -/
def RayQuery.createDescriptorSet (s : RayQuery) : RayQuery × List Effect :=
  let pool := s.alloc.nextId
  let layout := s.alloc.nextId + 1
  let set := s.alloc.nextId + 2
  ({ s with
      alloc := ⟨s.alloc.nextId + 3, s.alloc.destroyed⟩
      descPool := pool
      descSetLayout := layout
      descSet := set
      descSetGbuffer := s.buffer.id },
   [Effect.updateDescriptorSets set eGbuffer VK_DESCRIPTOR_TYPE_STORAGE_BUFFER s.buffer.id])

/-- RayQuery::create (rayquery.cpp:68-104): one push-constant range of
sizeof(RtxState) compute-stage bytes; the G-buffer sized
`sizeof(GeomData) * (size.width * size.height)` in uint32 pixel
arithmetic; the local descriptor-set layout appended after the
caller-supplied layouts in the pipeline layout. -/
def RayQuery.create (s0 : RayQuery) (size : Extent2D)
    (rtDescSetLayouts : List Nat) : RayQuery × List Effect :=
  let push_constants : List PushConstantRange :=
    [⟨VK_SHADER_STAGE_COMPUTE_BIT, 0, sizeof_RtxState⟩]
  let bufferSize := (size.width * size.height) % U32_MOD
  let created := s0.alloc.createBuffer (sizeof_GeomData * bufferSize)
    VK_BUFFER_USAGE_STORAGE_BUFFER_BIT VK_MEMORY_PROPERTY_DEVICE_LOCAL_BIT
  let s1 : RayQuery :=
    { s0 with alloc := created.2, buffer := created.1, bufferSize := bufferSize }
  let stepDesc := s1.createDescriptorSet
  let s2 := stepDesc.1
  let setLayouts := rtDescSetLayouts ++ [s2.descSetLayout]
  let s3 : RayQuery :=
    { s2 with
        alloc := ⟨s2.alloc.nextId + 2, s2.alloc.destroyed⟩
        pipelineLayout := s2.alloc.nextId
        pipeline := s2.alloc.nextId + 1
        pipelineSetLayouts := setLayouts
        pipelinePushConstants := push_constants }
  (s3, Effect.createBuffer created.1.id created.1.size created.1.usage created.1.memProps
        :: stepDesc.2)

/-- The dispatch-group count of RayQuery::run for one dimension:
`(n + (GROUP_SIZE - 1)) / GROUP_SIZE` in uint32 arithmetic. -/
def groupCount (n : Nat) : Nat := ((n + (GROUP_SIZE - 1)) % U32_MOD) / GROUP_SIZE

/-- RayQuery::run (rayquery.cpp:111-124): appends the local descriptor
set to the (by-value) caller list, binds pipeline and sets, pushes the
RtxState payload, dispatches the ceil-divided grid.  Member state is
untouched; only command recording is emitted. -/
def RayQuery.run (s : RayQuery) (size : Extent2D) (descSets : List Nat) :
    RayQuery × List Effect :=
  let sets := descSets ++ [s.descSet]
  (s,
   [Effect.cmdBindPipeline VK_PIPELINE_BIND_POINT_COMPUTE s.pipeline,
    Effect.cmdBindDescriptorSets VK_PIPELINE_BIND_POINT_COMPUTE s.pipelineLayout 0 sets,
    Effect.cmdPushConstants s.pipelineLayout VK_SHADER_STAGE_COMPUTE_BIT 0 sizeof_RtxState s.state,
    Effect.cmdDispatch (groupCount size.width) (groupCount size.height) 1])

/-- RayQuery::update (rayquery.cpp:127-142): grow-only resize.  If the
uint32 product `size.width * size.height` exceeds `m_bufferSize`, the
old buffer is destroyed, a new one of exactly the new size is created,
and the descriptor at eGbuffer is rewritten to the new buffer;
otherwise nothing happens. -/
def RayQuery.update (s : RayQuery) (size : Extent2D) : RayQuery × List Effect :=
  if (size.width * size.height) % U32_MOD > s.bufferSize then
    let newSize := (size.width * size.height) % U32_MOD
    let alloc1 := s.alloc.destroyBuffer s.buffer
    let created := alloc1.createBuffer (sizeof_GeomData * newSize)
      VK_BUFFER_USAGE_STORAGE_BUFFER_BIT VK_MEMORY_PROPERTY_DEVICE_LOCAL_BIT
    ({ s with
        alloc := created.2
        buffer := created.1
        bufferSize := newSize
        descSetGbuffer := created.1.id },
     [Effect.destroyBuffer s.buffer.id,
      Effect.createBuffer created.1.id created.1.size created.1.usage created.1.memProps,
      Effect.updateDescriptorSets s.descSet eGbuffer VK_DESCRIPTOR_TYPE_STORAGE_BUFFER created.1.id])
  else (s, [])

/-- RayQuery::destroy (rayquery.cpp:52-63): releases the buffer, the
descriptor pool, the descriptor-set layout, the pipeline and the
pipeline layout, in program order, then nulls `m_pipelineLayout` and
`m_pipeline` (and only those two members). -/
def RayQuery.destroy (s : RayQuery) : RayQuery × List Effect :=
  ({ s with
      alloc := s.alloc.destroyBuffer s.buffer
      pipelineLayout := VK_NULL_HANDLE
      pipeline := VK_NULL_HANDLE },
   [Effect.destroyBuffer s.buffer.id,
    Effect.destroyDescriptorPool s.descPool,
    Effect.destroyDescriptorSetLayout s.descSetLayout,
    Effect.destroyPipeline s.pipeline,
    Effect.destroyPipelineLayout s.pipelineLayout])

/-- Folding a sequence of update(size) calls over a RayQuery. -/
def RayQuery.updateSeq (s : RayQuery) : List Extent2D → RayQuery
  | [] => s
  | e :: rest => ((s.update e).1).updateSeq rest

/-!
Light importance-sampling alias tables.

host_device.h declares the table-entry record (ImptSampData: alias, q,
pdf, aliasPdf) but the builder that fills it is outside the sources at
hand, so it is modelled from the spec over exact rationals.
-/

/-- Modelled from the spec: the (alias, q) part of an ImptSampData
alias-table entry — `aliasIdx` is the index of the paired bucket, `q`
the acceptance threshold. The repository's table-builder code is not
among the given sources; only host_device.h declares the record. -/
structure AliasEntry where
  aliasIdx : Nat
  q : ℚ
  deriving DecidableEq

/-- Weights of a pending worklist, labelled by their bucket index. -/
def pendTotal : List (Nat × ℚ) → ℚ
  | [] => 0
  | x :: xs => x.2 + pendTotal xs

/-- The pending mass a worklist assigns to bucket `i`. -/
def pendMass : List (Nat × ℚ) → Nat → ℚ
  | [], _ => 0
  | x :: xs, i => (if x.1 = i then x.2 else 0) + pendMass xs i

/-- The probability mass the finished entries assign to bucket `i`:
each entry contributes its acceptance mass `q` to its own bucket and
its redirect mass `1 - q` to its alias bucket. -/
def accMass : List (Nat × AliasEntry) → Nat → ℚ
  | [], _ => 0
  | e :: es, i =>
      (if e.1 = i then e.2.q else 0)
        + (if e.2.aliasIdx = i then 1 - e.2.q else 0) + accMass es i

/-- Modelled from the spec: the alias-method pairing loop.  The
smallest-scope step of §4.5: pop an underfull bucket `s` and an
overfull bucket `l`, resolve `s` with `q = p_s`, `alias = l`, move the
leftover `p_l + p_s - 1` of `l` back to whichever worklist it now
belongs to; buckets left over once a worklist empties resolve with
`q = 1` (their alias is never taken). -/
def buildLoop : List (Nat × ℚ) → List (Nat × ℚ) → List (Nat × AliasEntry) →
    List (Nat × AliasEntry)
  | [], [], acc => acc
  | [], l :: ls, acc => buildLoop [] ls ((l.1, ⟨l.1, 1⟩) :: acc)
  | s :: ss, [], acc => buildLoop ss [] ((s.1, ⟨s.1, 1⟩) :: acc)
  | s :: ss, l :: ls, acc =>
      let pl := l.2 + s.2 - 1
      if pl < 1 then
        buildLoop ((l.1, pl) :: ss) ls ((s.1, ⟨l.1, s.2⟩) :: acc)
      else
        buildLoop ss ((l.1, pl) :: ls) ((s.1, ⟨l.1, s.2⟩) :: acc)
termination_by small large _ => small.length + large.length

/-- Index-labelled scaled weights: bucket `k + j` carries `w_j * c`. -/
def scaledFrom (c : ℚ) (k : Nat) : List ℚ → List (Nat × ℚ)
  | [] => []
  | x :: xs => (k, x * c) :: scaledFrom c (k + 1) xs

/-- Modelled from the spec: build the alias table of a weight list.
Weights are scaled by `N / W` so the mean bucket weight is 1, then
partitioned into underfull (`p < 1`) and overfull (`p ≥ 1`) worklists
and paired off by `buildLoop`. -/
def buildAliasTable (w : List ℚ) : List (Nat × AliasEntry) :=
  let c : ℚ := (w.length : ℚ) / w.sum
  let p := scaledFrom c 0 w
  buildLoop (p.filter fun x => decide (x.2 < 1))
    (p.filter fun x => !decide (x.2 < 1)) []

/-- Modelled from the spec: the probability that alias-table sampling
returns bucket `i` — pick a table entry uniformly at random, accept
its own bucket with probability `q`, otherwise redirect to its alias
bucket. -/
def tableProb (t : List (Nat × AliasEntry)) (i : Nat) : ℚ :=
  accMass t i / (t.length : ℚ)

/-! Helper lemmas about the RayQuery state machine. -/

lemma update_bufferSize_mono (s : RayQuery) (e : Extent2D) :
    s.bufferSize ≤ (s.update e).1.bufferSize := by
  unfold RayQuery.update
  split
  · simp only []
    omega
  · exact le_refl _

lemma update_bufferSize_lt (s : RayQuery) (e : Extent2D)
    (h : s.bufferSize < U32_MOD) : (s.update e).1.bufferSize < U32_MOD := by
  unfold RayQuery.update
  split
  · simp only []
    exact Nat.mod_lt _ (by norm_num [U32_MOD])
  · exact h

lemma update_noop (s : RayQuery) (e : Extent2D)
    (h : (e.width * e.height) % U32_MOD ≤ s.bufferSize) :
    s.update e = (s, []) := by
  unfold RayQuery.update
  rw [if_neg (by omega)]

lemma update_grow_bufferSize (s : RayQuery) (e : Extent2D)
    (h : (e.width * e.height) % U32_MOD > s.bufferSize) :
    (s.update e).1.bufferSize = (e.width * e.height) % U32_MOD := by
  unfold RayQuery.update
  rw [if_pos h]

lemma updateSeq_nil (s : RayQuery) : s.updateSeq [] = s := rfl

lemma updateSeq_append (s : RayQuery) (a b : List Extent2D) :
    s.updateSeq (a ++ b) = (s.updateSeq a).updateSeq b := by
  induction a generalizing s with
  | nil => rfl
  | cons e rest ih =>
      show ((s.update e).1).updateSeq (rest ++ b)
        = (((s.update e).1).updateSeq rest).updateSeq b
      exact ih _

lemma updateSeq_bufferSize_mono (s : RayQuery) (calls : List Extent2D) :
    s.bufferSize ≤ (s.updateSeq calls).bufferSize := by
  induction calls generalizing s with
  | nil => exact le_refl _
  | cons e rest ih =>
      exact le_trans (update_bufferSize_mono s e) (ih (s.update e).1)

lemma updateSeq_bufferSize_lt (s : RayQuery) (calls : List Extent2D)
    (h : s.bufferSize < U32_MOD) :
    (s.updateSeq calls).bufferSize < U32_MOD := by
  induction calls generalizing s with
  | nil => exact h
  | cons e rest ih => exact ih (s.update e).1 (update_bufferSize_lt s e h)

lemma update_bufferSize_covers (s : RayQuery) (e : Extent2D)
    (he : e.width * e.height < U32_MOD) :
    e.width * e.height ≤ (s.update e).1.bufferSize := by
  by_cases hgrow : (e.width * e.height) % U32_MOD > s.bufferSize
  · rw [update_grow_bufferSize s e hgrow, Nat.mod_eq_of_lt he]
  · rw [update_noop s e (by omega)]
    show e.width * e.height ≤ s.bufferSize
    rw [Nat.mod_eq_of_lt he] at hgrow
    omega

lemma create_bufferSize (s0 : RayQuery) (size : Extent2D) (L : List Nat) :
    (RayQuery.create s0 size L).1.bufferSize
      = (size.width * size.height) % U32_MOD := rfl

lemma create_bufferSize_lt (s0 : RayQuery) (size : Extent2D) (L : List Nat) :
    (RayQuery.create s0 size L).1.bufferSize < U32_MOD := by
  rw [create_bufferSize]
  exact Nat.mod_lt _ (by norm_num [U32_MOD])

/-! Claim theorems for the RayQuery lifecycle. -/

/-- C1 (amended): on a created RayQuery, for every sequence of
update(size) calls in which each requested width × height is below
2^32, the stored capacity m_bufferSize is non-decreasing along the
sequence and after each call is at least that call's width × height
(hence at least the maximum requested so far); and any call whose
pixel count is at most the current capacity is a no-op that returns
the state unchanged and performs no reallocation. -/
theorem update_grow_only_inv (s0 : RayQuery) (sz : Extent2D) (L : List Nat)
    (calls : List Extent2D)
    (hov : ∀ e ∈ calls, e.width * e.height < U32_MOD) :
    (∀ pre post, calls = pre ++ post →
      (((RayQuery.create s0 sz L).1.updateSeq pre).bufferSize ≤
        ((RayQuery.create s0 sz L).1.updateSeq calls).bufferSize)) ∧
    (∀ pre e post, calls = pre ++ e :: post →
      (e.width * e.height ≤
          ((RayQuery.create s0 sz L).1.updateSeq (pre ++ [e])).bufferSize) ∧
      (e.width * e.height ≤
          ((RayQuery.create s0 sz L).1.updateSeq pre).bufferSize →
        ((RayQuery.create s0 sz L).1.updateSeq pre).update e
          = (((RayQuery.create s0 sz L).1.updateSeq pre), []))) := by
  constructor
  · intro pre post hsplit
    rw [hsplit, updateSeq_append]
    exact updateSeq_bufferSize_mono _ post
  · intro pre e post hsplit
    have hmem : e ∈ calls := by rw [hsplit]; exact List.mem_append_right _ (List.mem_cons_self e post)
    have hew : e.width * e.height < U32_MOD := hov e hmem
    have hlt : ((RayQuery.create s0 sz L).1.updateSeq pre).bufferSize < U32_MOD :=
      updateSeq_bufferSize_lt _ pre (create_bufferSize_lt s0 sz L)
    constructor
    · rw [updateSeq_append]
      show e.width * e.height ≤
        ((((RayQuery.create s0 sz L).1.updateSeq pre).update e).1.updateSeq []).bufferSize
      rw [updateSeq_nil]
      exact update_bufferSize_covers _ e hew
    · intro hle
      exact update_noop _ _ (by rw [Nat.mod_eq_of_lt hew]; exact hle)

/-- C1 counterexample: on the RayQuery created at 800 × 600, a single
update call requesting 65536 × 65536 leaves the capacity at 480000,
which is strictly less than the requested width × height 65536 × 65536
= 2^32 (the uint32 pixel product wraps to 0), refuting the unqualified
claim that capacity is always at least the maximum width × height
requested so far. -/
theorem update_grow_only_cex :
    ((RayQuery.create RayQuery.initial ⟨800, 600⟩ []).1.updateSeq
        [⟨65536, 65536⟩]).bufferSize = 480000 ∧
    480000 < 65536 * 65536 := by
  exact ⟨rfl, by norm_num⟩

/-- C1 witness: the amended invariant evaluated on the RayQuery
created at 800 × 600 with the call sequence
[1024 × 768, 640 × 480]: after the first call the capacity is at
least 1024 × 768, and the second (smaller) call is a no-op. -/
theorem update_grow_only_witness :
    (1024 * 768 ≤
      ((RayQuery.create RayQuery.initial ⟨800, 600⟩ []).1.updateSeq
        [⟨1024, 768⟩]).bufferSize) ∧
    (((RayQuery.create RayQuery.initial ⟨800, 600⟩ []).1.updateSeq
        [⟨1024, 768⟩]).update ⟨640, 480⟩
      = (((RayQuery.create RayQuery.initial ⟨800, 600⟩ []).1.updateSeq
        [⟨1024, 768⟩]), [])) := by
  have h := update_grow_only_inv RayQuery.initial ⟨800, 600⟩ []
    [⟨1024, 768⟩, ⟨640, 480⟩] (by decide)
  have h1 := h.2 [] ⟨1024, 768⟩ [⟨640, 480⟩] rfl
  have h2 := h.2 [⟨1024, 768⟩] ⟨640, 480⟩ [] rfl
  exact ⟨h1.1, h2.2 (by decide)⟩

/-- C2 (amended): for every extent whose dimensions satisfy
width + 7 < 2^32 and height + 7 < 2^32 (no uint32 wrap in the
rounding add), run records exactly a pipeline bind, a descriptor bind,
a push-constant upload, and a compute dispatch whose group counts are
the ceiling divisions (width + 7) / 8 and (height + 7) / 8 with
groupsZ = 1; the group counts are exact ceilings: 8 ⋅ groups covers
the extent and overshoots by less than one group. -/
theorem run_dispatch_ceil (s : RayQuery) (size : Extent2D) (ds : List Nat)
    (hw : size.width + 7 < U32_MOD) (hh : size.height + 7 < U32_MOD) :
    ((s.run size ds).2 =
      [Effect.cmdBindPipeline VK_PIPELINE_BIND_POINT_COMPUTE s.pipeline,
       Effect.cmdBindDescriptorSets VK_PIPELINE_BIND_POINT_COMPUTE
         s.pipelineLayout 0 (ds ++ [s.descSet]),
       Effect.cmdPushConstants s.pipelineLayout VK_SHADER_STAGE_COMPUTE_BIT
         0 sizeof_RtxState s.state,
       Effect.cmdDispatch (groupCount size.width) (groupCount size.height) 1]) ∧
    groupCount size.width = (size.width + 7) / 8 ∧
    groupCount size.height = (size.height + 7) / 8 ∧
    size.width ≤ 8 * groupCount size.width ∧
    8 * groupCount size.width < size.width + 8 ∧
    size.height ≤ 8 * groupCount size.height ∧
    8 * groupCount size.height < size.height + 8 := by
  have hgw : groupCount size.width = (size.width + 7) / 8 := by
    unfold groupCount GROUP_SIZE
    rw [Nat.mod_eq_of_lt hw]
  have hgh : groupCount size.height = (size.height + 7) / 8 := by
    unfold groupCount GROUP_SIZE
    rw [Nat.mod_eq_of_lt hh]
  refine ⟨rfl, hgw, hgh, ?_, ?_, ?_, ?_⟩
  · rw [hgw]; omega
  · rw [hgw]; omega
  · rw [hgh]; omega
  · rw [hgh]; omega

/-- C2 counterexample: at width = 2^32 − 7 the uint32 rounding add
wraps, so run dispatches groupsX = 0 even though the true ceiling
ceil(4294967289 / 8) is 536870912; the unqualified every-extent
ceiling claim is false. -/
theorem run_dispatch_ceil_cex :
    (RayQuery.run RayQuery.initial ⟨4294967289, 8⟩ []).2 =
      [Effect.cmdBindPipeline 1 0,
       Effect.cmdBindDescriptorSets 1 0 0 [0],
       Effect.cmdPushConstants 0 32 0 52 0,
       Effect.cmdDispatch 0 1 1] ∧
    (4294967289 + 8 - 1) / 8 = 536870912 ∧
    (0 : Nat) ≠ 536870912 := by
  refine ⟨?_, by norm_num, by norm_num⟩
  decide

/-- C2 witness: the amended theorem applied at 800 × 600 and at
801 × 600 gives groupsX = 100, groupsY = 75 and groupsX = 101. -/
theorem run_dispatch_ceil_witness :
    groupCount 800 = 100 ∧ groupCount 600 = 75 ∧ groupCount 801 = 101 := by
  have h1 := run_dispatch_ceil RayQuery.initial ⟨800, 600⟩ []
    (by norm_num [U32_MOD]) (by norm_num [U32_MOD])
  have h2 := run_dispatch_ceil RayQuery.initial ⟨801, 600⟩ []
    (by norm_num [U32_MOD]) (by norm_num [U32_MOD])
  refine ⟨?_, ?_, ?_⟩
  · rw [h1.2.1]; norm_num
  · rw [h1.2.2.1]; norm_num
  · rw [h2.2.1]; norm_num

/-- C3 (confirmed): when update grows (the uint32 pixel product
exceeds the capacity) on a state whose live buffer handle and
destroyed handles are below the allocator's fresh counter, the
descriptor at binding eGbuffer is rewritten to the newly allocated
buffer handle, which differs from the old handle and from every
destroyed handle; the recorded API order is: destroy old buffer,
create new buffer, rewrite the storage-buffer descriptor — all before
returning. -/
theorem update_rebinds_new_buffer (s : RayQuery) (size : Extent2D)
    (hgrow : (size.width * size.height) % U32_MOD > s.bufferSize)
    (hfresh : s.buffer.id < s.alloc.nextId)
    (hfreshd : ∀ d ∈ s.alloc.destroyed, d < s.alloc.nextId) :
    (s.update size).1.descSetGbuffer = (s.update size).1.buffer.id ∧
    (s.update size).1.buffer.id ≠ s.buffer.id ∧
    (s.update size).1.buffer.id ∉ (s.update size).1.alloc.destroyed ∧
    (s.update size).2 =
      [Effect.destroyBuffer s.buffer.id,
       Effect.createBuffer (s.update size).1.buffer.id
         (sizeof_GeomData * ((size.width * size.height) % U32_MOD))
         VK_BUFFER_USAGE_STORAGE_BUFFER_BIT VK_MEMORY_PROPERTY_DEVICE_LOCAL_BIT,
       Effect.updateDescriptorSets s.descSet eGbuffer
         VK_DESCRIPTOR_TYPE_STORAGE_BUFFER (s.update size).1.buffer.id] := by
  unfold RayQuery.update
  rw [if_pos hgrow]
  refine ⟨rfl, ?_, ?_, rfl⟩
  · show s.alloc.nextId ≠ s.buffer.id
    omega
  · show s.alloc.nextId ∉ s.buffer.id :: s.alloc.destroyed
    intro hmem
    rcases List.mem_cons.1 hmem with h | h
    · omega
    · exact absurd (hfreshd _ h) (by omega)

/-- C3 witness: a grow from the 800 × 600 creation to 1000 × 800
rebinds the descriptor to the fresh buffer handle, distinct from the
destroyed one. -/
theorem update_rebinds_new_buffer_witness :
    (((RayQuery.create RayQuery.initial ⟨800, 600⟩ []).1.update
        ⟨1000, 800⟩).1.descSetGbuffer =
      ((RayQuery.create RayQuery.initial ⟨800, 600⟩ []).1.update
        ⟨1000, 800⟩).1.buffer.id) ∧
    (((RayQuery.create RayQuery.initial ⟨800, 600⟩ []).1.update
        ⟨1000, 800⟩).1.buffer.id ≠
      (RayQuery.create RayQuery.initial ⟨800, 600⟩ []).1.buffer.id) := by
  have h := update_rebinds_new_buffer
    (RayQuery.create RayQuery.initial ⟨800, 600⟩ []).1 ⟨1000, 800⟩
    (by decide) (by decide) (by decide)
  exact ⟨h.1, h.2.1⟩

/-- C4 (amended): destroy releases the G-buffer, then the descriptor
pool, the descriptor-set layout, the pipeline and the pipeline layout,
in that order, and resets only the pipeline and pipeline-layout
members to the null sentinel; the descriptor-pool and
descriptor-set-layout members keep their stale values, so a second
destroy re-issues destruction of those stale handles rather than
being a safe no-op. -/
theorem destroy_order_and_handles (s : RayQuery) :
    (s.destroy).2 =
      [Effect.destroyBuffer s.buffer.id,
       Effect.destroyDescriptorPool s.descPool,
       Effect.destroyDescriptorSetLayout s.descSetLayout,
       Effect.destroyPipeline s.pipeline,
       Effect.destroyPipelineLayout s.pipelineLayout] ∧
    (s.destroy).1.pipeline = VK_NULL_HANDLE ∧
    (s.destroy).1.pipelineLayout = VK_NULL_HANDLE ∧
    (s.destroy).1.descPool = s.descPool ∧
    (s.destroy).1.descSetLayout = s.descSetLayout ∧
    ((s.destroy).1.destroy).2 =
      [Effect.destroyBuffer s.buffer.id,
       Effect.destroyDescriptorPool s.descPool,
       Effect.destroyDescriptorSetLayout s.descSetLayout,
       Effect.destroyPipeline VK_NULL_HANDLE,
       Effect.destroyPipelineLayout VK_NULL_HANDLE] := by
  exact ⟨rfl, rfl, rfl, rfl, rfl, rfl⟩

/-- C4 counterexample: on the RayQuery created at 800 × 600 the
recorded destroy order begins with the buffer and the descriptor pool
— the pool (handle 2) is released before the pipeline (handle 6), not
after — and after destroy the descriptor-pool member still holds 2,
not the null sentinel, so the claimed release order and null-reset of
all four handles are both false. -/
theorem destroy_order_cex :
    (RayQuery.destroy
        ((RayQuery.create RayQuery.initial ⟨800, 600⟩ []).1)).2 =
      [Effect.destroyBuffer 1,
       Effect.destroyDescriptorPool 2,
       Effect.destroyDescriptorSetLayout 3,
       Effect.destroyPipeline 6,
       Effect.destroyPipelineLayout 5] ∧
    (RayQuery.destroy
        ((RayQuery.create RayQuery.initial ⟨800, 600⟩ []).1)).1.descPool = 2 ∧
    (2 : Nat) ≠ VK_NULL_HANDLE := by
  exact ⟨by decide, rfl, by decide⟩

/-- C5 (confirmed): create records the pipeline layout's set-layout
list as the caller-supplied layouts with the locally owned G-buffer
layout appended last, and run binds the caller-supplied descriptor
sets with the local G-buffer set appended last; when the caller
supplies equally many sets as layouts, the local set's binding index
equals the local layout's index (both are the caller-list length). -/
theorem local_set_last (s0 : RayQuery) (size : Extent2D) (L : List Nat)
    (size2 : Extent2D) (ds : List Nat) :
    ((RayQuery.create s0 size L).1.pipelineSetLayouts
      = L ++ [(RayQuery.create s0 size L).1.descSetLayout]) ∧
    (((RayQuery.create s0 size L).1.run size2 ds).2 =
      [Effect.cmdBindPipeline VK_PIPELINE_BIND_POINT_COMPUTE
         (RayQuery.create s0 size L).1.pipeline,
       Effect.cmdBindDescriptorSets VK_PIPELINE_BIND_POINT_COMPUTE
         (RayQuery.create s0 size L).1.pipelineLayout 0
         (ds ++ [(RayQuery.create s0 size L).1.descSet]),
       Effect.cmdPushConstants (RayQuery.create s0 size L).1.pipelineLayout
         VK_SHADER_STAGE_COMPUTE_BIT 0 sizeof_RtxState
         (RayQuery.create s0 size L).1.state,
       Effect.cmdDispatch (groupCount size2.width) (groupCount size2.height) 1]) ∧
    ((L ++ [(RayQuery.create s0 size L).1.descSetLayout]).getLast?
      = some (RayQuery.create s0 size L).1.descSetLayout) ∧
    ((ds ++ [(RayQuery.create s0 size L).1.descSet]).getLast?
      = some (RayQuery.create s0 size L).1.descSet) ∧
    (ds.length = L.length →
      (ds ++ [(RayQuery.create s0 size L).1.descSet]).length
        = (L ++ [(RayQuery.create s0 size L).1.descSetLayout]).length) := by
  refine ⟨rfl, rfl, ?_, ?_, ?_⟩
  · exact List.getLast?_concat L
  · exact List.getLast?_concat ds
  · intro hlen
    simp [hlen]

/-- C5 witness: created with caller layouts [10, 11] and run with
caller sets [20, 21], the layout list is [10, 11, 3] and the bound
set list is [20, 21, 4] — the local objects (layout 3, set 4) both sit
at index 2. -/
theorem local_set_last_witness :
    ((RayQuery.create RayQuery.initial ⟨800, 600⟩ [10, 11]).1.pipelineSetLayouts
      = [10, 11, 3]) ∧
    (([20, 21] ++
        [(RayQuery.create RayQuery.initial ⟨800, 600⟩ [10, 11]).1.descSet]).length
      = ([10, 11] ++
        [(RayQuery.create RayQuery.initial ⟨800, 600⟩ [10, 11]).1.descSetLayout]).length) := by
  have h := local_set_last RayQuery.initial ⟨800, 600⟩ [10, 11] ⟨800, 600⟩ [20, 21]
  refine ⟨?_, h.2.2.2.2 (by decide)⟩
  rw [h.1]
  decide

/-- C6 (confirmed): create registers exactly one push-constant range —
compute-stage-only flags, offset 0, size sizeof(RtxState) = 52 bytes —
and every run uploads the m_state payload with exactly those flags,
offset and size; the recorded upload matches the registered range. -/
theorem push_constant_contract (s0 : RayQuery) (size : Extent2D) (L : List Nat)
    (s : RayQuery) (size2 : Extent2D) (ds : List Nat) :
    ((RayQuery.create s0 size L).1.pipelinePushConstants
      = [⟨VK_SHADER_STAGE_COMPUTE_BIT, 0, sizeof_RtxState⟩]) ∧
    ((RayQuery.create s0 size L).1.pipelinePushConstants.length = 1) ∧
    ((s.run size2 ds).2 =
      [Effect.cmdBindPipeline VK_PIPELINE_BIND_POINT_COMPUTE s.pipeline,
       Effect.cmdBindDescriptorSets VK_PIPELINE_BIND_POINT_COMPUTE
         s.pipelineLayout 0 (ds ++ [s.descSet]),
       Effect.cmdPushConstants s.pipelineLayout VK_SHADER_STAGE_COMPUTE_BIT
         0 sizeof_RtxState s.state,
       Effect.cmdDispatch (groupCount size2.width) (groupCount size2.height) 1]) ∧
    sizeof_RtxState = 52 := by
  exact ⟨rfl, rfl, rfl, rfl⟩

/-- C7 (amended): for extents whose pixel product stays below 2^32,
the G-buffer is created as a storage-usage, device-local buffer of
exactly (width ⋅ height) ⋅ sizeof(GeomData) bytes (sizeof(GeomData) =
64), and every growing update reallocates to exactly the newly
required size with the same usage and memory properties. -/
theorem gbuffer_exact_size (s0 : RayQuery) (size : Extent2D) (L : List Nat)
    (s : RayQuery) (size2 : Extent2D)
    (h1 : size.width * size.height < U32_MOD)
    (h2 : size2.width * size2.height < U32_MOD)
    (hgrow : size2.width * size2.height > s.bufferSize) :
    ((RayQuery.create s0 size L).1.buffer.size
      = sizeof_GeomData * (size.width * size.height)) ∧
    ((RayQuery.create s0 size L).1.buffer.usage
      = VK_BUFFER_USAGE_STORAGE_BUFFER_BIT) ∧
    ((RayQuery.create s0 size L).1.buffer.memProps
      = VK_MEMORY_PROPERTY_DEVICE_LOCAL_BIT) ∧
    ((RayQuery.create s0 size L).1.bufferSize = size.width * size.height) ∧
    ((s.update size2).1.buffer.size
      = sizeof_GeomData * (size2.width * size2.height)) ∧
    ((s.update size2).1.buffer.usage = VK_BUFFER_USAGE_STORAGE_BUFFER_BIT) ∧
    ((s.update size2).1.buffer.memProps
      = VK_MEMORY_PROPERTY_DEVICE_LOCAL_BIT) ∧
    sizeof_GeomData = 64 := by
  have hmod1 : (size.width * size.height) % U32_MOD = size.width * size.height :=
    Nat.mod_eq_of_lt h1
  have hmod2 : (size2.width * size2.height) % U32_MOD = size2.width * size2.height :=
    Nat.mod_eq_of_lt h2
  have hcond : (size2.width * size2.height) % U32_MOD > s.bufferSize := by
    rw [hmod2]; exact hgrow
  unfold RayQuery.update
  rw [if_pos hcond]
  refine ⟨?_, rfl, rfl, ?_, ?_, rfl, rfl, rfl⟩
  · show sizeof_GeomData * ((size.width * size.height) % U32_MOD)
      = sizeof_GeomData * (size.width * size.height)
    rw [hmod1]
  · show (size.width * size.height) % U32_MOD = size.width * size.height
    exact hmod1
  · show sizeof_GeomData * ((size2.width * size2.height) % U32_MOD)
      = sizeof_GeomData * (size2.width * size2.height)
    rw [hmod2]

/-- C7 counterexample: creating at 65536 × 65536 (pixel product 2^32,
which wraps to 0 in uint32) allocates a buffer of 0 bytes, not the
sizeof(GeomData) ⋅ 2^32 bytes the unqualified claim requires. -/
theorem gbuffer_exact_size_cex :
    (RayQuery.create RayQuery.initial ⟨65536, 65536⟩ []).1.buffer.size = 0 ∧
    (0 : Nat) ≠ sizeof_GeomData * (65536 * 65536) := by
  exact ⟨rfl, by decide⟩

/-- C7 witness: the amended theorem at creation extent 800 × 600 and
grow extent 1000 × 800 on the created state: 30720000 = 64 ⋅ 480000
bytes at create, 51200000 = 64 ⋅ 800000 bytes after the grow. -/
theorem gbuffer_exact_size_witness :
    ((RayQuery.create RayQuery.initial ⟨800, 600⟩ []).1.buffer.size
      = 30720000) ∧
    (((RayQuery.create RayQuery.initial ⟨800, 600⟩ []).1.update
        ⟨1000, 800⟩).1.buffer.size = 51200000) := by
  have h := gbuffer_exact_size RayQuery.initial ⟨800, 600⟩ []
    (RayQuery.create RayQuery.initial ⟨800, 600⟩ []).1 ⟨1000, 800⟩
    (by norm_num [U32_MOD]) (by norm_num [U32_MOD]) (by decide)
  constructor
  · rw [h.1]; decide
  · rw [h.2.2.2.2.1]; decide

/-- C9 (confirmed): run returns the member state unchanged — pipeline,
layout, buffer, capacity and descriptor set are all exactly as before
— and emits exactly four effects, every one of which is a
command-buffer recording call (vkCmd*); in particular no host/device
synchronization is recorded, and the caller's descriptor-set list is
only read (the local set is appended to a copy). -/
theorem run_record_only (s : RayQuery) (size : Extent2D) (ds : List Nat) :
    (s.run size ds).1 = s ∧
    (s.run size ds).2.length = 4 ∧
    (∀ e ∈ (s.run size ds).2, e.isCmdRecording = true) ∧
    Effect.deviceWaitIdle ∉ (s.run size ds).2 := by
  refine ⟨rfl, rfl, ?_, ?_⟩
  · intro e he
    simp only [RayQuery.run, List.mem_cons, List.not_mem_nil, or_false] at he
    rcases he with h | h | h | h <;> rw [h] <;> rfl
  · simp [RayQuery.run]

/-- C9 witness: run on the default state at 800 × 600 with no caller
sets leaves the state untouched and records four effects. -/
theorem run_record_only_witness :
    (RayQuery.run RayQuery.initial ⟨800, 600⟩ []).1 = RayQuery.initial ∧
    (RayQuery.run RayQuery.initial ⟨800, 600⟩ []).2.length = 4 := by
  have h := run_record_only RayQuery.initial ⟨800, 600⟩ []
  exact ⟨h.1, h.2.1⟩

/-- C10 (confirmed): the pixel count is the uint32 product
width ⋅ height mod 2^32, so for any extent whose true product reaches
2^32 the recorded capacity and the allocated byte size fall strictly
short of one GeomData entry per true pixel, and an update whose
wrapped pixel count fits the current capacity is a no-op even though
the true render target is strictly larger than the capacity. -/
theorem pixelcount_wraps (w h : Nat) (s0 s : RayQuery) (L : List Nat)
    (hw : w < U32_MOD) (hh : h < U32_MOD) (hbig : U32_MOD ≤ w * h)
    (hcap : (w * h) % U32_MOD ≤ s.bufferSize) (hlt : s.bufferSize < w * h) :
    (RayQuery.create s0 ⟨w, h⟩ L).1.bufferSize = (w * h) % U32_MOD ∧
    (RayQuery.create s0 ⟨w, h⟩ L).1.bufferSize < w * h ∧
    (RayQuery.create s0 ⟨w, h⟩ L).1.buffer.size < sizeof_GeomData * (w * h) ∧
    s.update ⟨w, h⟩ = (s, []) := by
  have hmodlt : (w * h) % U32_MOD < w * h :=
    lt_of_lt_of_le (Nat.mod_lt _ (by norm_num [U32_MOD])) hbig
  refine ⟨rfl, ?_, ?_, ?_⟩
  · rw [create_bufferSize]; exact hmodlt
  · show sizeof_GeomData * ((w * h) % U32_MOD) < sizeof_GeomData * (w * h)
    exact mul_lt_mul_of_pos_left hmodlt (show 0 < sizeof_GeomData by decide)
  · exact update_noop s ⟨w, h⟩ hcap

/-- C10 witness: at 65536 × 65536 (true product 2^32) the created
capacity is the wrapped value 0 and the buffer holds 0 bytes; and on
the 800 × 600-created state (capacity 480000) the strictly larger
65536 × 65536 target is treated as within capacity: the update is a
no-op. -/
theorem pixelcount_wraps_witness :
    (RayQuery.create RayQuery.initial ⟨65536, 65536⟩ []).1.bufferSize = 0 ∧
    ((RayQuery.create RayQuery.initial ⟨800, 600⟩ []).1.update
        ⟨65536, 65536⟩
      = ((RayQuery.create RayQuery.initial ⟨800, 600⟩ []).1, [])) := by
  have h := pixelcount_wraps 65536 65536 RayQuery.initial
    (RayQuery.create RayQuery.initial ⟨800, 600⟩ []).1 []
    (by norm_num [U32_MOD]) (by norm_num [U32_MOD]) (by norm_num [U32_MOD])
    (by decide) (by decide)
  exact ⟨h.1, h.2.2.2⟩

/-! Alias-table lemmas: the pairing loop conserves per-bucket mass. -/

lemma pendTotal_ge_length (lst : List (Nat × ℚ)) (h : ∀ x ∈ lst, 1 ≤ x.2) :
    (lst.length : ℚ) ≤ pendTotal lst := by
  induction lst with
  | nil => simp [pendTotal]
  | cons x xs ih =>
      have hx := h x (List.mem_cons_self x xs)
      have hxs := ih (fun y hy => h y (List.mem_cons_of_mem x hy))
      simp only [pendTotal, List.length_cons]
      push_cast
      linarith

lemma pendTotal_le_length (lst : List (Nat × ℚ)) (h : ∀ x ∈ lst, x.2 ≤ 1) :
    pendTotal lst ≤ (lst.length : ℚ) := by
  induction lst with
  | nil => simp [pendTotal]
  | cons x xs ih =>
      have hx := h x (List.mem_cons_self x xs)
      have hxs := ih (fun y hy => h y (List.mem_cons_of_mem x hy))
      simp only [pendTotal, List.length_cons]
      push_cast
      linarith

lemma pendTotal_lt_length (lst : List (Nat × ℚ)) (hne : lst ≠ [])
    (h : ∀ x ∈ lst, x.2 < 1) : pendTotal lst < (lst.length : ℚ) := by
  cases lst with
  | nil => exact absurd rfl hne
  | cons x xs =>
      have hx := h x (List.mem_cons_self x xs)
      have hxs := pendTotal_le_length xs
        (fun y hy => le_of_lt (h y (List.mem_cons_of_mem x hy)))
      simp only [pendTotal, List.length_cons]
      push_cast
      linarith

lemma pendTotal_all_one (lst : List (Nat × ℚ)) (h : ∀ x ∈ lst, 1 ≤ x.2)
    (heq : pendTotal lst = (lst.length : ℚ)) : ∀ x ∈ lst, x.2 = 1 := by
  induction lst with
  | nil => simp
  | cons x xs ih =>
      have hx := h x (List.mem_cons_self x xs)
      have htail : ∀ y ∈ xs, 1 ≤ y.2 :=
        fun y hy => h y (List.mem_cons_of_mem x hy)
      have hge := pendTotal_ge_length xs htail
      simp only [pendTotal, List.length_cons] at heq
      push_cast at heq
      have hx1 : x.2 = 1 := by linarith
      have hxs : pendTotal xs = (xs.length : ℚ) := by linarith
      intro y hy
      rcases List.mem_cons.1 hy with hrl | hrl
      · rw [hrl]; exact hx1
      · exact ih htail hxs y hrl

lemma buildLoop_length (small large : List (Nat × ℚ))
    (acc : List (Nat × AliasEntry)) :
    (buildLoop small large acc).length
      = small.length + large.length + acc.length := by
  induction small, large, acc using buildLoop.induct with
  | case1 acc => simp [buildLoop]
  | case2 l ls acc ih =>
      simp only [buildLoop] at ih ⊢
      simp at ih ⊢
      omega
  | case3 s ss acc ih =>
      simp only [buildLoop] at ih ⊢
      simp at ih ⊢
      omega
  | case4 s ss l ls acc pl h ih =>
      have h2 : l.2 + s.2 - 1 < 1 := h
      rw [show buildLoop (s :: ss) (l :: ls) acc
          = buildLoop ((l.1, l.2 + s.2 - 1) :: ss) ls
              ((s.1, ⟨l.1, s.2⟩) :: acc) from by
            simp only [buildLoop]
            rw [if_pos h2]]
      have ih2 : (buildLoop ((l.1, l.2 + s.2 - 1) :: ss) ls
            ((s.1, ⟨l.1, s.2⟩) :: acc)).length
          = ((l.1, l.2 + s.2 - 1) :: ss).length + ls.length
            + ((s.1, (⟨l.1, s.2⟩ : AliasEntry)) :: acc).length := ih
      rw [ih2]
      simp only [List.length_cons]
      omega
  | case5 s ss l ls acc pl h ih =>
      have h2 : ¬ l.2 + s.2 - 1 < 1 := h
      rw [show buildLoop (s :: ss) (l :: ls) acc
          = buildLoop ss ((l.1, l.2 + s.2 - 1) :: ls)
              ((s.1, ⟨l.1, s.2⟩) :: acc) from by
            simp only [buildLoop]
            rw [if_neg h2]]
      have ih2 : (buildLoop ss ((l.1, l.2 + s.2 - 1) :: ls)
            ((s.1, ⟨l.1, s.2⟩) :: acc)).length
          = ss.length + ((l.1, l.2 + s.2 - 1) :: ls).length
            + ((s.1, (⟨l.1, s.2⟩ : AliasEntry)) :: acc).length := ih
      rw [ih2]
      simp only [List.length_cons]
      omega

lemma buildLoop_q_bounds : ∀ (small large : List (Nat × ℚ))
    (acc : List (Nat × AliasEntry)),
    (∀ x ∈ small, 0 ≤ x.2 ∧ x.2 < 1) → (∀ x ∈ large, 1 ≤ x.2) →
    (∀ e ∈ acc, 0 ≤ e.2.q ∧ e.2.q ≤ 1) →
    ∀ e ∈ buildLoop small large acc, 0 ≤ e.2.q ∧ e.2.q ≤ 1 := by
  intro small large acc
  induction small, large, acc using buildLoop.induct with
  | case1 acc =>
      intro hs hl hacc
      simpa [buildLoop] using hacc
  | case2 l ls acc ih =>
      intro hs hl hacc
      rw [show buildLoop [] (l :: ls) acc
          = buildLoop [] ls ((l.1, ⟨l.1, 1⟩) :: acc) from by simp [buildLoop]]
      refine ih hs (fun y hy => hl y (List.mem_cons_of_mem l hy)) ?_
      intro e he
      rcases List.mem_cons.1 he with hrl | hrl
      · rw [hrl]; constructor <;> norm_num
      · exact hacc e hrl
  | case3 s ss acc ih =>
      intro hs hl hacc
      rw [show buildLoop (s :: ss) [] acc
          = buildLoop ss [] ((s.1, ⟨s.1, 1⟩) :: acc) from by simp [buildLoop]]
      refine ih (fun y hy => hs y (List.mem_cons_of_mem s hy)) hl ?_
      intro e he
      rcases List.mem_cons.1 he with hrl | hrl
      · rw [hrl]; constructor <;> norm_num
      · exact hacc e hrl
  | case4 s ss l ls acc pl h ih =>
      intro hs hl hacc
      have h2 : l.2 + s.2 - 1 < 1 := h
      have hs2 := hs s (List.mem_cons_self s ss)
      have hl2 := hl l (List.mem_cons_self l ls)
      rw [show buildLoop (s :: ss) (l :: ls) acc
          = buildLoop ((l.1, l.2 + s.2 - 1) :: ss) ls
              ((s.1, ⟨l.1, s.2⟩) :: acc) from by
            simp only [buildLoop]
            rw [if_pos h2]]
      refine ih ?_ (fun y hy => hl y (List.mem_cons_of_mem l hy)) ?_
      · intro y hy
        rcases List.mem_cons.1 hy with hrl | hrl
        · rw [hrl]
          constructor
          · show (0 : ℚ) ≤ l.2 + s.2 - 1
            linarith [hs2.1, hl2]
          · exact h2
        · exact hs y (List.mem_cons_of_mem s hrl)
      · intro e he
        rcases List.mem_cons.1 he with hrl | hrl
        · rw [hrl]
          exact ⟨hs2.1, le_of_lt hs2.2⟩
        · exact hacc e hrl
  | case5 s ss l ls acc pl h ih =>
      intro hs hl hacc
      have h2 : ¬ l.2 + s.2 - 1 < 1 := h
      have hs2 := hs s (List.mem_cons_self s ss)
      rw [show buildLoop (s :: ss) (l :: ls) acc
          = buildLoop ss ((l.1, l.2 + s.2 - 1) :: ls)
              ((s.1, ⟨l.1, s.2⟩) :: acc) from by
            simp only [buildLoop]
            rw [if_neg h2]]
      refine ih (fun y hy => hs y (List.mem_cons_of_mem s hy)) ?_ ?_
      · intro y hy
        rcases List.mem_cons.1 hy with hrl | hrl
        · rw [hrl]
          show (1 : ℚ) ≤ l.2 + s.2 - 1
          exact le_of_not_lt h2
        · exact hl y (List.mem_cons_of_mem l hrl)
      · intro e he
        rcases List.mem_cons.1 he with hrl | hrl
        · rw [hrl]
          exact ⟨hs2.1, le_of_lt hs2.2⟩
        · exact hacc e hrl

lemma buildLoop_accMass : ∀ (small large : List (Nat × ℚ))
    (acc : List (Nat × AliasEntry)),
    (∀ x ∈ small, x.2 < 1) → (∀ x ∈ large, 1 ≤ x.2) →
    (pendTotal small + pendTotal large
      = (small.length : ℚ) + (large.length : ℚ)) →
    ∀ i, accMass (buildLoop small large acc) i
      = pendMass small i + pendMass large i + accMass acc i := by
  intro small large acc
  induction small, large, acc using buildLoop.induct with
  | case1 acc =>
      intro hs hl hJ i
      simp [buildLoop, pendMass]
  | case2 l ls acc ih =>
      intro hs hl hJ i
      have hJ2 : pendTotal (l :: ls) = ((l :: ls).length : ℚ) := by
        simpa [pendTotal] using hJ
      have hl1 : l.2 = 1 :=
        pendTotal_all_one (l :: ls) hl hJ2 l (List.mem_cons_self l ls)
      have hJ3 : pendTotal ls = (ls.length : ℚ) := by
        simp only [pendTotal, List.length_cons] at hJ2
        push_cast at hJ2
        linarith
      rw [show buildLoop [] (l :: ls) acc
          = buildLoop [] ls ((l.1, ⟨l.1, 1⟩) :: acc) from by simp [buildLoop]]
      rw [ih (by simp) (fun y hy => hl y (List.mem_cons_of_mem l hy))
        (by simpa [pendTotal] using hJ3) i]
      simp only [pendMass, accMass]
      by_cases hli : l.1 = i <;> simp [hli, hl1] <;> ring
  | case3 s ss acc ih =>
      intro hs hl hJ i
      exfalso
      have hlt := pendTotal_lt_length (s :: ss) (by simp) hs
      have hJ2 : pendTotal (s :: ss) = ((s :: ss).length : ℚ) := by
        simpa [pendTotal] using hJ
      linarith
  | case4 s ss l ls acc pl h ih =>
      intro hs hl hJ i
      have h2 : l.2 + s.2 - 1 < 1 := h
      rw [show buildLoop (s :: ss) (l :: ls) acc
          = buildLoop ((l.1, l.2 + s.2 - 1) :: ss) ls
              ((s.1, ⟨l.1, s.2⟩) :: acc) from by
            simp only [buildLoop]
            rw [if_pos h2]]
      have ih2 : (∀ x ∈ (l.1, l.2 + s.2 - 1) :: ss, x.2 < 1) →
          (∀ x ∈ ls, 1 ≤ x.2) →
          (pendTotal ((l.1, l.2 + s.2 - 1) :: ss) + pendTotal ls
            = ((((l.1, l.2 + s.2 - 1) :: ss).length : ℚ)) + (ls.length : ℚ)) →
          ∀ i, accMass (buildLoop ((l.1, l.2 + s.2 - 1) :: ss) ls
              ((s.1, ⟨l.1, s.2⟩) :: acc)) i
            = pendMass ((l.1, l.2 + s.2 - 1) :: ss) i + pendMass ls i
              + accMass ((s.1, (⟨l.1, s.2⟩ : AliasEntry)) :: acc) i := ih
      have hs2 : ∀ x ∈ (l.1, l.2 + s.2 - 1) :: ss, x.2 < 1 := by
        intro y hy
        rcases List.mem_cons.1 hy with hrl | hrl
        · rw [hrl]; exact h2
        · exact hs y (List.mem_cons_of_mem s hrl)
      have hl2 : ∀ x ∈ ls, 1 ≤ x.2 :=
        fun y hy => hl y (List.mem_cons_of_mem l hy)
      have hJ2 : pendTotal ((l.1, l.2 + s.2 - 1) :: ss) + pendTotal ls
          = ((((l.1, l.2 + s.2 - 1) :: ss).length : ℚ)) + (ls.length : ℚ) := by
        simp only [pendTotal, List.length_cons] at hJ ⊢
        push_cast at hJ ⊢
        linarith
      rw [ih2 hs2 hl2 hJ2 i]
      simp only [pendMass, accMass]
      by_cases h1 : s.1 = i <;> by_cases hli : l.1 = i <;>
        simp [h1, hli] <;> ring
  | case5 s ss l ls acc pl h ih =>
      intro hs hl hJ i
      have h2 : ¬ l.2 + s.2 - 1 < 1 := h
      rw [show buildLoop (s :: ss) (l :: ls) acc
          = buildLoop ss ((l.1, l.2 + s.2 - 1) :: ls)
              ((s.1, ⟨l.1, s.2⟩) :: acc) from by
            simp only [buildLoop]
            rw [if_neg h2]]
      have ih2 : (∀ x ∈ ss, x.2 < 1) →
          (∀ x ∈ (l.1, l.2 + s.2 - 1) :: ls, 1 ≤ x.2) →
          (pendTotal ss + pendTotal ((l.1, l.2 + s.2 - 1) :: ls)
            = (ss.length : ℚ) + ((((l.1, l.2 + s.2 - 1) :: ls).length : ℚ))) →
          ∀ i, accMass (buildLoop ss ((l.1, l.2 + s.2 - 1) :: ls)
              ((s.1, ⟨l.1, s.2⟩) :: acc)) i
            = pendMass ss i + pendMass ((l.1, l.2 + s.2 - 1) :: ls) i
              + accMass ((s.1, (⟨l.1, s.2⟩ : AliasEntry)) :: acc) i := ih
      have hs2 : ∀ x ∈ ss, x.2 < 1 :=
        fun y hy => hs y (List.mem_cons_of_mem s hy)
      have hl2 : ∀ x ∈ (l.1, l.2 + s.2 - 1) :: ls, 1 ≤ x.2 := by
        intro y hy
        rcases List.mem_cons.1 hy with hrl | hrl
        · rw [hrl]
          show (1 : ℚ) ≤ l.2 + s.2 - 1
          exact le_of_not_lt h2
        · exact hl y (List.mem_cons_of_mem l hrl)
      have hJ2 : pendTotal ss + pendTotal ((l.1, l.2 + s.2 - 1) :: ls)
          = (ss.length : ℚ) + ((((l.1, l.2 + s.2 - 1) :: ls).length : ℚ)) := by
        simp only [pendTotal, List.length_cons] at hJ ⊢
        push_cast at hJ ⊢
        linarith
      rw [ih2 hs2 hl2 hJ2 i]
      simp only [pendMass, accMass]
      by_cases h1 : s.1 = i <;> by_cases hli : l.1 = i <;>
        simp [h1, hli] <;> ring

lemma length_scaledFrom (c : ℚ) : ∀ (k : Nat) (xs : List ℚ),
    (scaledFrom c k xs).length = xs.length := by
  intro k xs
  induction xs generalizing k with
  | nil => rfl
  | cons x xs ih => simp [scaledFrom, ih]

lemma pendTotal_scaledFrom (c : ℚ) : ∀ (k : Nat) (xs : List ℚ),
    pendTotal (scaledFrom c k xs) = xs.sum * c := by
  intro k xs
  induction xs generalizing k with
  | nil => simp [scaledFrom, pendTotal]
  | cons x xs ih =>
      simp only [scaledFrom, pendTotal, List.sum_cons, ih]
      ring

lemma mem_scaledFrom (c : ℚ) : ∀ (k : Nat) (xs : List ℚ),
    ∀ x ∈ scaledFrom c k xs, ∃ y ∈ xs, x.2 = y * c := by
  intro k xs
  induction xs generalizing k with
  | nil => simp [scaledFrom]
  | cons z xs ih =>
      intro x hx
      rcases List.mem_cons.1 hx with hrl | hrl
      · exact ⟨z, List.mem_cons_self z xs, by rw [hrl]⟩
      · obtain ⟨y, hy, hyx⟩ := ih (k + 1) x hrl
        exact ⟨y, List.mem_cons_of_mem z hy, hyx⟩

lemma pendMass_scaledFrom_lt (c : ℚ) : ∀ (k : Nat) (xs : List ℚ) (i : Nat),
    i < k → pendMass (scaledFrom c k xs) i = 0 := by
  intro k xs
  induction xs generalizing k with
  | nil => intro i _; rfl
  | cons x xs ih =>
      intro i hik
      simp only [scaledFrom, pendMass]
      rw [if_neg (by omega), ih (k + 1) i (by omega)]
      ring

lemma pendMass_scaledFrom (c : ℚ) : ∀ (k : Nat) (xs : List ℚ) (i : Nat),
    k ≤ i → pendMass (scaledFrom c k xs) i = (xs.getD (i - k) 0) * c := by
  intro k xs
  induction xs generalizing k with
  | nil =>
      intro i _
      show (0 : ℚ) = List.getD [] (i - k) 0 * c
      simp [List.getD]
  | cons x xs ih =>
      intro i hki
      simp only [scaledFrom, pendMass]
      by_cases hik : k = i
      · rw [if_pos hik, pendMass_scaledFrom_lt c (k + 1) xs i (by omega)]
        have : i - k = 0 := by omega
        rw [this]
        simp
      · rw [if_neg hik, ih (k + 1) i (by omega)]
        have h1 : i - k = (i - (k + 1)) + 1 := by omega
        rw [h1, List.getD_cons_succ]
        ring

lemma pendTotal_filter (f : Nat × ℚ → Bool) : ∀ (lst : List (Nat × ℚ)),
    pendTotal (lst.filter f) + pendTotal (lst.filter fun x => !f x)
      = pendTotal lst := by
  intro lst
  induction lst with
  | nil => simp [pendTotal]
  | cons x xs ih =>
      cases hf : f x <;>
        simp only [List.filter_cons, hf, Bool.not_true, Bool.not_false,
          ite_true, ite_false, pendTotal, Bool.true_eq_false,
          Bool.false_eq_true] <;>
        rw [← ih] <;> ring

lemma pendMass_filter (f : Nat × ℚ → Bool) (i : Nat) :
    ∀ (lst : List (Nat × ℚ)),
    pendMass (lst.filter f) i + pendMass (lst.filter fun x => !f x) i
      = pendMass lst i := by
  intro lst
  induction lst with
  | nil => simp [pendMass]
  | cons x xs ih =>
      cases hf : f x <;>
        simp only [List.filter_cons, hf, Bool.not_true, Bool.not_false,
          ite_true, ite_false, pendMass, Bool.true_eq_false,
          Bool.false_eq_true] <;>
        rw [← ih] <;> ring

lemma length_filter_split (f : Nat × ℚ → Bool) : ∀ (lst : List (Nat × ℚ)),
    (lst.filter f).length + (lst.filter fun x => !f x).length
      = lst.length := by
  intro lst
  induction lst with
  | nil => rfl
  | cons x xs ih =>
      cases hf : f x <;>
        simp only [List.filter_cons, hf, Bool.not_true, Bool.not_false,
          ite_true, ite_false, List.length_cons, Bool.true_eq_false,
          Bool.false_eq_true] <;>
        omega

/-- C8 (confirmed, spec-modelled builder): for every non-empty list of
nonnegative light importance weights with positive total, the built
alias table has one entry per weight, every acceptance threshold q
lies in [0, 1], and picking an entry uniformly at random, accepting
its bucket with probability q and otherwise redirecting to its alias
reproduces exactly the normalized weight distribution. -/
theorem aliasTable_reproduces (w : List ℚ) (hne : w ≠ [])
    (hnn : ∀ x ∈ w, 0 ≤ x) (hpos : 0 < w.sum) :
    (buildAliasTable w).length = w.length ∧
    (∀ e ∈ buildAliasTable w, 0 ≤ e.2.q ∧ e.2.q ≤ 1) ∧
    (∀ i, tableProb (buildAliasTable w) i = w.getD i 0 / w.sum) := by
  have hW : w.sum ≠ 0 := ne_of_gt hpos
  have hlen0 : w.length ≠ 0 := by
    intro hcontra
    exact hne (List.length_eq_zero.1 hcontra)
  have hN : ((w.length : ℚ)) ≠ 0 := Nat.cast_ne_zero.2 hlen0
  set c : ℚ := (w.length : ℚ) / w.sum with hc
  set p : List (Nat × ℚ) := scaledFrom c 0 w with hp
  set small : List (Nat × ℚ) := p.filter (fun x => decide (x.2 < 1)) with hsm
  set large : List (Nat × ℚ) := p.filter (fun x => !decide (x.2 < 1)) with hlg
  have htable : buildAliasTable w = buildLoop small large [] := rfl
  have hc0 : 0 ≤ c := div_nonneg (Nat.cast_nonneg _) (le_of_lt hpos)
  have hsP : ∀ x ∈ small, x.2 < 1 := by
    intro x hx
    exact of_decide_eq_true (List.mem_filter.1 hx).2
  have hlP : ∀ x ∈ large, 1 ≤ x.2 := by
    intro x hx
    have h2 := (List.mem_filter.1 hx).2
    have h3 : ¬ (x.2 < 1) := by simpa using h2
    exact le_of_not_lt h3
  have hs0 : ∀ x ∈ small, 0 ≤ x.2 ∧ x.2 < 1 := by
    intro x hx
    refine ⟨?_, hsP x hx⟩
    obtain ⟨y, hy, hyx⟩ := mem_scaledFrom c 0 w x (List.mem_filter.1 hx).1
    rw [hyx]
    exact mul_nonneg (hnn y hy) hc0
  have hplen : p.length = w.length := length_scaledFrom c 0 w
  have hJlen : small.length + large.length = w.length := by
    rw [hsm, hlg, length_filter_split, hplen]
  have hptotal : pendTotal p = (w.length : ℚ) := by
    rw [hp, pendTotal_scaledFrom, hc]
    field_simp
  have hJ : pendTotal small + pendTotal large
      = (small.length : ℚ) + (large.length : ℚ) := by
    rw [hsm, hlg, pendTotal_filter, hptotal]
    have hcast := hJlen
    rw [hsm, hlg] at hcast
    exact_mod_cast hcast.symm
  refine ⟨?_, ?_, ?_⟩
  · rw [htable, buildLoop_length]
    simpa using hJlen
  · rw [htable]
    exact buildLoop_q_bounds small large [] hs0 hlP (by simp)
  · intro i
    rw [htable]
    unfold tableProb
    rw [buildLoop_accMass small large [] hsP hlP hJ i, buildLoop_length]
    have hmass : pendMass small i + pendMass large i = pendMass p i := by
      rw [hsm, hlg]
      exact pendMass_filter _ i p
    have hpmass : pendMass p i = (w.getD i 0) * c := by
      rw [hp]
      simpa using pendMass_scaledFrom c 0 w i (Nat.zero_le i)
    simp only [accMass, List.length_nil, add_zero]
    rw [hmass, hpmass]
    rw [show small.length + large.length = w.length from hJlen]
    rw [hc]
    field_simp
    ring

/-- C8 witness: for weights [1, 1, 2] the sampling distribution of the
built table is exactly [1/4, 1/4, 1/2], the table has three entries,
and every q lies in [0, 1]. -/
theorem aliasTable_reproduces_witness :
    tableProb (buildAliasTable [1, 1, 2]) 0 = 1/4 ∧
    tableProb (buildAliasTable [1, 1, 2]) 1 = 1/4 ∧
    tableProb (buildAliasTable [1, 1, 2]) 2 = 1/2 ∧
    (buildAliasTable [1, 1, 2]).length = 3 := by
  have h := aliasTable_reproduces [1, 1, 2] (by decide)
    (by
      intro x hx
      rcases List.mem_cons.1 hx with h1 | h1
      · rw [h1]; norm_num
      rcases List.mem_cons.1 h1 with h2 | h2
      · rw [h2]; norm_num
      rcases List.mem_cons.1 h2 with h3 | h3
      · rw [h3]; norm_num
      · simp at h3)
    (by norm_num)
  refine ⟨?_, ?_, ?_, ?_⟩
  · rw [h.2.2 0]; norm_num
  · rw [h.2.2 1]; norm_num
  · rw [h.2.2 2]; norm_num
  · rw [h.1]; rfl
